import Mathlib

/-!
# Verification of the Portfolio Management data pipeline

Shallow embedding of the loan-portfolio dashboard's core logic
(`pages/02_Portfolio_Management.py`): data loading, month filtering,
categorical/range filtering, summary aggregation, chart ordering and
display formatting.  Tables are lists of records, numeric cells are
rationals, and the fallible loader is a total function on an explicit
read-outcome type.
-/

namespace Sorrento

/-- One row of the loan table (`loan_data.parquet`), restricted to the
columns the filtering and aggregation pipeline reads. -/
structure LoanRow where
  year : Nat
  month : Nat
  day : Nat
  franchise : String
  sector : String
  creditRating : String
  product : String
  balance : ℚ
  margin : ℚ
  deriving DecidableEq, Repr

/-- The sidebar filter selection: the four multiselect values and the
balance-slider endpoints (the slider returns integers). -/
structure Selection where
  franchises : List String
  sectors : List String
  ratings : List String
  products : List String
  lo : ℤ
  hi : ℤ
  deriving DecidableEq, Repr

/-- The month filter `df_monthly`: rows of the table whose `Date` falls in the selected
month (`df_full['Date'].dt.to_period('M') == selected_month_period`). -/
def df_monthly (t : List LoanRow) (y m : Nat) : List LoanRow :=
  t.filter (fun r => r.year == y && r.month == m)

/-- The filter pipeline `df_filtered`: conjunction of the four `isin` membership tests and the
inclusive balance-range comparison against the slider endpoints. -/
def df_filtered (dfm : List LoanRow) (sel : Selection) : List LoanRow :=
  dfm.filter (fun r =>
    decide (r.franchise ∈ sel.franchises) &&
    decide (r.sector ∈ sel.sectors) &&
    decide (r.creditRating ∈ sel.ratings) &&
    decide (r.product ∈ sel.products) &&
    decide ((sel.lo : ℚ) ≤ r.balance) &&
    decide (r.balance ≤ (sel.hi : ℚ)))

/-- A concrete loan row used to witness the filter theorems. -/
def exRow : LoanRow :=
  ⟨2025, 2, 28, "Retail", "Energy", "AA", "Term Loan", 100, 1/100⟩

/-- A concrete selection that keeps `exRow`. -/
def exSel : Selection :=
  ⟨["Retail"], ["Energy"], ["AA"], ["Term Loan"], 0, 200⟩

/-- Summary metric `total_balance = df_monthly['Balance'].sum()`. -/
def total_balance (l : List LoanRow) : ℚ :=
  (l.map (·.balance)).sum

/-- The quantity `np.average(df_monthly['Margin'], weights=df_monthly['Balance'])`,
i.e. `Σ(margin_i * balance_i) / Σ balance_i`. -/
def np_average_margin (l : List LoanRow) : ℚ :=
  (l.map (fun r => r.margin * r.balance)).sum / total_balance l

/-- Summary metric `avg_margin`: the weighted average is computed only when
`total_balance > 0`, otherwise the metric is `0`. -/
def avg_margin (l : List LoanRow) : ℚ :=
  if 0 < total_balance l then np_average_margin l else 0

/-- Modelled from the spec: the summary weighted-average-Margin formula as
§8 states it, `Σ(Margin_i × Balance_i) / Σ Balance_i` over the
month-filtered set, with the single carve-out `0` when total Balance is
`0`.  Used to compare the spec's formula with `avg_margin` from the code. -/
def wam_spec (l : List LoanRow) : ℚ :=
  if total_balance l = 0 then 0
  else (l.map (fun r => r.margin * r.balance)).sum / total_balance l

/-- Two rows with positive balances (100 and 300) and margins 1% and 2%:
the spec's own worked example with weighted average 7/400 = 1.75%. -/
def exPosRows : List LoanRow :=
  [⟨2025, 2, 28, "Retail", "Energy", "AA", "Term Loan", 100, 1/100⟩,
   ⟨2025, 2, 27, "Retail", "Mining", "A", "Term Loan", 300, 2/100⟩]

/-- The same two rows with negated balances, so the month's total balance
is strictly negative. -/
def exNegRows : List LoanRow :=
  [⟨2025, 2, 28, "Retail", "Energy", "AA", "Term Loan", -100, 1/100⟩,
   ⟨2025, 2, 27, "Retail", "Mining", "A", "Term Loan", -300, 2/100⟩]

/-- A raw row as read from the parquet file, before the `Date` column has
been coerced: the date is still an uninterpreted string. -/
structure RawRow where
  dateStr : String
  franchise : String
  sector : String
  creditRating : String
  product : String
  balance : ℚ
  margin : ℚ
  deriving DecidableEq, Repr

/-- Outcome of the underlying `pd.read_parquet` call: the file is read
successfully, or raising `FileNotFoundError`, `ImportError` (missing
pyarrow), or some other exception. -/
inductive ReadResult where
  | success : List RawRow → ReadResult
  | fileNotFound : ReadResult
  | importError : ReadResult
  | otherError : String → ReadResult
  deriving DecidableEq, Repr

/-- What `load_loan_data` hands back: messages pushed to the user-facing
error surface (`st.error`), and the returned dataframe. -/
structure LoadResult where
  errors : List String
  table : List LoanRow
  deriving DecidableEq, Repr

/-- Parse a `YYYY-MM-DD` date string, as `pd.to_datetime` must for the
`Date` column; `none` models the parse raising. -/
def parseDate (s : String) : Option (Nat × Nat × Nat) :=
  match (s.splitOn "-").map String.toNat? with
  | [some y, some m, some d] => some (y, m, d)
  | _ => none

/-- Coerce one raw row, parsing its date string. -/
def parseRow (r : RawRow) : Option LoanRow :=
  (parseDate r.dateStr).map (fun d =>
    ⟨d.1, d.2.1, d.2.2, r.franchise, r.sector, r.creditRating, r.product,
      r.balance, r.margin⟩)

/-- The loader `load_loan_data`: wraps the read and the `Date` coercion in
`try/except`.  Every failure path reports at least one descriptive error
and returns the empty dataframe; no exception escapes (the function is
total by construction). -/
def load_loan_data (res : ReadResult) : LoadResult :=
  match res with
  | .success rows =>
    match rows.mapM parseRow with
    | some parsed => ⟨[], parsed⟩
    | none => ⟨["An error occurred loading the data file: invalid Date"], []⟩
  | .fileNotFound =>
    ⟨["Error: Data file not found at ./data/loan_data.parquet",
      "Ensure the data folder exists in your main app directory and contains loan_data.parquet.",
      "You may need to run the create_data.py script first."], []⟩
  | .importError =>
    ⟨["Module pyarrow not installed. Cannot read Parquet file.",
      "Please install it (pip install pyarrow in your venv) and restart the app."], []⟩
  | .otherError e =>
    ⟨["An error occurred loading the data file: " ++ e], []⟩

/-- Minimum of the month's Balance column, `df_monthly['Balance'].min()`
(`0` on an empty table; the page only builds the slider when the month has
rows). -/
def balMin (l : List LoanRow) : ℚ :=
  match l with
  | [] => 0
  | r :: rs => rs.foldl (fun acc x => min acc x.balance) r.balance

/-- Maximum of the month's Balance column, `df_monthly['Balance'].max()`. -/
def balMax (l : List LoanRow) : ℚ :=
  match l with
  | [] => 0
  | r :: rs => rs.foldl (fun acc x => max acc x.balance) r.balance

/-- Python's `int()` applied to a float: truncation toward zero. -/
def pyInt (q : ℚ) : ℤ :=
  if 0 ≤ q then ⌊q⌋ else ⌈q⌉

/-- Slider lower bound `min_balance = int(df_monthly['Balance'].min())`. -/
def min_balance (l : List LoanRow) : ℤ :=
  pyInt (balMin l)

/-- Pre-adjustment slider upper bound
`max_balance = int(df_monthly['Balance'].max())`. -/
def max_balance (l : List LoanRow) : ℤ :=
  pyInt (balMax l)

/-- Slider step `step_val = max(1, (max_balance - min_balance) // 100)`;
integer `/` here is floor division, as Python's `//` (the divisor is
positive, so Euclidean and floor division agree). -/
def step_val (l : List LoanRow) : ℤ :=
  max 1 ((max_balance l - min_balance l) / 100)

/-- The slider upper bound after the guard
`if min_balance >= max_balance: max_balance = min_balance + step_val`. -/
def max_balance_adjusted (l : List LoanRow) : ℤ :=
  if min_balance l ≥ max_balance l then min_balance l + step_val l
  else max_balance l

/-- Python's `sorted` on a list of strings. -/
def py_sorted (l : List String) : List String :=
  l.insertionSort (· ≤ ·)

/-- Sidebar options `sorted(df_monthly['Franchise'].unique())`. -/
def franchise_options (l : List LoanRow) : List String :=
  py_sorted (l.map (·.franchise)).dedup

/-- Sidebar options `sorted(df_monthly['Sector'].unique())`. -/
def sector_options (l : List LoanRow) : List String :=
  py_sorted (l.map (·.sector)).dedup

/-- Sidebar options `sorted(df_monthly['Product'].unique())`. -/
def product_options (l : List LoanRow) : List String :=
  py_sorted (l.map (·.product)).dedup

/-- The fixed rating scale `rating_options_all`, best to worst. -/
def rating_options_all : List String :=
  ["AAA", "AA", "A", "BBB", "BB", "B", "CCC"]

/-- Sidebar options: the fixed scale restricted to ratings present in the
month (`[r for r in rating_options_all if r in ...unique()]`). -/
def rating_options (l : List LoanRow) : List String :=
  rating_options_all.filter (fun r => decide (r ∈ l.map (·.creditRating)))

/-- The widget-default selection for a month: every option of every
multiselect selected, and the slider at its full range. -/
def default_selection (l : List LoanRow) : Selection :=
  ⟨franchise_options l, sector_options l, rating_options l, product_options l,
   min_balance l, max_balance_adjusted l⟩

/-- The filtered table when the user has narrowed nothing. -/
def default_filtered (l : List LoanRow) : List LoanRow :=
  df_filtered l (default_selection l)

/-- Position of a rating on the fixed scale; `pd.Categorical` assigns
codes by this position, and values outside the scale (index = length)
sort last, matching the `NaN`-last behaviour of `sort_values`. -/
def ratingIndex (s : String) : Nat :=
  rating_options_all.indexOf s

/-- The counts `df_filtered['Credit Rating'].value_counts()`: one pair per
distinct value, ordered by descending count. -/
def value_counts (l : List String) : List (String × Nat) :=
  List.insertionSort (fun a b => b.2 ≤ a.2)
    (l.dedup.map (fun s => (s, l.count s)))

/-- Chart data `rating_counts`: the value counts re-sorted by the fixed
rating scale (`pd.Categorical(..., categories=rating_options_all,
ordered=True)` then `sort_values`). -/
def rating_counts (l : List LoanRow) : List (String × Nat) :=
  List.insertionSort (fun a b => ratingIndex a.1 ≤ ratingIndex b.1)
    (value_counts (l.map (·.creditRating)))

/-- Three rows arriving in the order A, AAA, A. -/
def exC5Rows : List LoanRow :=
  [⟨2025, 2, 28, "Retail", "Energy", "A", "Term Loan", 100, 1/100⟩,
   ⟨2025, 2, 27, "Retail", "Energy", "AAA", "Term Loan", 200, 2/100⟩,
   ⟨2025, 2, 26, "Retail", "Energy", "A", "Term Loan", 300, 3/100⟩]

/-- A selection keeping all three rows of `exC5Rows`. -/
def exC5Sel : Selection :=
  ⟨["Retail"], ["Energy"], ["AAA", "A"], ["Term Loan"], 0, 1000⟩

/-- Rounding half to even, as Python string formatting applies to the
fractional value before printing it with zero decimal places. -/
def roundHalfEven (q : ℚ) : ℤ :=
  if Int.fract q = 1/2 then (if Even ⌊q⌋ then ⌊q⌋ else ⌊q⌋ + 1)
  else round q

/-- Map a decimal digit to its character. -/
def digitToChar (d : Nat) : Char :=
  match d with
  | 0 => '0' | 1 => '1' | 2 => '2' | 3 => '3' | 4 => '4'
  | 5 => '5' | 6 => '6' | 7 => '7' | 8 => '8' | _ => '9'

/-- Map a digit character back to its value. -/
def charToDigit (c : Char) : Nat :=
  match c with
  | '0' => 0 | '1' => 1 | '2' => 2 | '3' => 3 | '4' => 4
  | '5' => 5 | '6' => 6 | '7' => 7 | '8' => 8 | _ => 9

/-- Little-endian decimal digits, rendering `0` as a single zero digit. -/
def decDigits (n : Nat) : List Nat :=
  if n = 0 then [0] else Nat.digits 10 n

/-- Insert a thousands separator after every three digits of a
little-endian digit-character list, as the `,` option of a Python format
specification does. -/
def group3 : List Char → List Char
  | a :: b :: c :: d :: rest => a :: b :: c :: ',' :: group3 (d :: rest)
  | l => l

/-- Render an integer with thousands separators and no decimals. -/
def intWithCommas (n : ℤ) : List Char :=
  let ds := (group3 ((decDigits n.natAbs).map digitToChar)).reverse
  if n < 0 then '-' :: ds else ds

/-- Python `'£{:,.0f}'.format(x)`: the pound sign, then the value rounded
to zero decimal places with thousands separators. -/
def formatCurrency (q : ℚ) : String :=
  String.mk ('£' :: intWithCommas (roundHalfEven q))

/-- Parse a monetary display string back to a number: strip the currency
symbol and the separators, then read an optionally signed integer. -/
def parseMonetary (s : String) : Option ℤ :=
  match s.data with
  | [] => none
  | c0 :: rest =>
    if c0 = '£' then
      match rest.filter (fun c => c != ',') with
      | [] => none
      | c :: cs =>
        if c = '-' then
          if cs = [] then none
          else some (-((Nat.ofDigits 10 (cs.reverse.map charToDigit) : ℕ) : ℤ))
        else some (((Nat.ofDigits 10 ((c :: cs).reverse.map charToDigit) : ℕ) : ℤ))
    else none

/-- A dataframe cell as the display step sees it: a numeric value, a plain
string, or a datetime value. -/
inductive Cell where
  | num : ℚ → Cell
  | str : String → Cell
  | date : Nat → Nat → Nat → Cell
  deriving DecidableEq, Repr

/-- The monetary columns formatted with the currency format string. -/
def currency_format_cols : List String :=
  ["Balance", "EAD", "RWA", "Interest Income", "Interest Costs",
   "Net Interest Income", "Fee Income"]

/-- The two-decimal percentage columns. -/
def pct2_format_cols : List String :=
  ["Margin", "RAROE"]

/-- All columns the numeric formatting loops touch. -/
def numeric_format_cols : List String :=
  currency_format_cols ++ pct2_format_cols ++ ["PD", "LGD"]

/-- Pad a little-endian digit list with zeros up to the given width. -/
def padDigits (w : Nat) (l : List Nat) : List Nat :=
  l ++ List.replicate (w - l.length) 0

/-- Python percentage formatting with the given number of decimals: the
value times 100, rounded, with a percent sign. -/
def formatPct (decimals : Nat) (q : ℚ) : String :=
  let scaled := roundHalfEven (q * 100 * (10 : ℚ)^decimals)
  let digs := padDigits (decimals + 1) (decDigits scaled.natAbs)
  let frac := (digs.take decimals).map digitToChar
  let intpart := (digs.drop decimals).map digitToChar
  String.mk ((if scaled < 0 then ['-'] else []) ++ intpart.reverse ++
    (if decimals = 0 then [] else '.' :: frac.reverse) ++ ['%'])

/-- Zero-pad to two digits, for months and days. -/
def pad2 (n : Nat) : List Char :=
  ((padDigits 2 (decDigits n)).map digitToChar).reverse

/-- Zero-pad to four digits, for years. -/
def pad4 (n : Nat) : List Char :=
  ((padDigits 4 (decDigits n)).map digitToChar).reverse

/-- The `strftime` pattern of the display step, `YYYY-MM-DD`. -/
def formatDate (y m d : Nat) : String :=
  String.mk (pad4 y ++ '-' :: (pad2 m ++ '-' :: pad2 d))

/-- Apply the currency format string to one cell; a non-numeric cell makes
the format call raise. -/
def formatMoneyCell : Cell → Except String Cell
  | .num q => .ok (.str (formatCurrency q))
  | _ => .error "unsupported operand for currency format"

/-- Apply a percentage format to one cell after `pd.to_numeric`, which
raises on a non-numeric cell. -/
def formatPctCell (decimals : Nat) : Cell → Except String Cell
  | .num q => .ok (.str (formatPct decimals q))
  | _ => .error "unable to parse value as numeric"

/-- Apply `pd.to_datetime(...).dt.strftime` to one cell; raises when the
cell does not hold a datetime value. -/
def formatDateCell : Cell → Except String Cell
  | .date y m d => .ok (.str (formatDate y m d))
  | _ => .error "to_datetime cannot convert value"

/-- One column pass of the four formatting loops: a column is reformatted
exactly when its name is on one of the lists (`if col in
df_display.columns` makes absent names fall through untouched). -/
def formatColCells (name : String) (cells : List Cell) :
    Except String (List Cell) :=
  if name ∈ currency_format_cols then cells.mapM formatMoneyCell
  else if name ∈ pct2_format_cols then cells.mapM (formatPctCell 2)
  else if name = "PD" then cells.mapM (formatPctCell 4)
  else if name = "LGD" then cells.mapM (formatPctCell 1)
  else Except.ok cells

/-- Apply a per-column transformation to every column of the table,
propagating the first raised error. -/
def mapColumns (g : String → List Cell → Except String (List Cell))
    (tbl : List (String × List Cell)) :
    Except String (List (String × List Cell)) :=
  tbl.mapM (fun p => do
    let vals ← g p.1 p.2
    pure (p.1, vals))

/-- The date-column pass: only the `Date` column is rewritten. -/
def dateColCells (name : String) (cells : List Cell) :
    Except String (List Cell) :=
  if name = "Date" then cells.mapM formatDateCell else Except.ok cells

/-- The line `df_display['Date'] = pd.to_datetime(df_display['Date'])...`:
reading the `Date` column raises a `KeyError` when it is absent. -/
def formatDateColumn (tbl : List (String × List Cell)) :
    Except String (List (String × List Cell)) :=
  if "Date" ∈ tbl.map Prod.fst then mapColumns dateColCells tbl
  else Except.error "KeyError: Date"

/-- The fixed column-priority list `display_cols` of the display table. -/
def display_cols : List String :=
  ["Date", "Facility ID", "Customer Name", "Franchise", "Sector", "Product",
   "Balance", "Margin", "Net Interest Income", "Fee Income", "RAROE",
   "Credit Rating", "PD", "LGD", "EAD", "RWA", "Interest Income",
   "Interest Costs"]

/-- Column selection `df_display[display_cols]` after restricting
`display_cols` to the columns present. -/
def reorderColumns (tbl : List (String × List Cell)) :
    List (String × List Cell) :=
  (display_cols.filter (fun c => decide (c ∈ tbl.map Prod.fst))).filterMap
    (fun c => tbl.find? (fun p => p.1 == c))

/-- The whole `try` block of the display step: the four numeric loops, the
date conversion, then the column reorder. -/
def format_display (tbl : List (String × List Cell)) :
    Except String (List (String × List Cell)) := do
  let t1 ← mapColumns formatColCells tbl
  let t2 ← formatDateColumn t1
  pure (reorderColumns t2)

/-- `df_display` as rendered: the formatted table, or on any formatting
error the unformatted `df_filtered` fallback of the `except` arm. -/
def df_display (tbl : List (String × List Cell)) : List (String × List Cell) :=
  match format_display tbl with
  | .ok t => t
  | .error _ => tbl

/-- A concrete four-column table (in the order Customer Name, Balance,
Date, Margin) missing most of the priority columns. -/
def exC7Table : List (String × List Cell) :=
  [("Customer Name", [Cell.str "Acme"]),
   ("Balance", [Cell.num 1234]),
   ("Date", [Cell.date 2025 2 28]),
   ("Margin", [Cell.num (1/100)])]

/-- A single row whose balance `201/2 = 100.5` is not an integer. -/
def exHalfRow : LoanRow :=
  ⟨2025, 2, 28, "Retail", "Energy", "AA", "Term Loan", 201/2, 1/100⟩

/-- Two rows sharing all categorical values, with balances `100` and
`401/2 = 200.5`: the month maximum is not an integer and the truncated
bounds `100 < 200` are distinct. -/
def exC9Rows : List LoanRow :=
  [⟨2025, 2, 28, "Retail", "Energy", "AA", "Term Loan", 100, 1/100⟩,
   ⟨2025, 2, 27, "Retail", "Energy", "AA", "Term Loan", 401/2, 2/100⟩]

end Sorrento

namespace Sorrento

/-- C1: every row returned by the filter pipeline satisfies all six
predicates simultaneously: its date lies in the selected month, its
franchise, sector, credit rating and product belong to the selected sets,
and its balance lies in the inclusive slider range. -/
theorem df_filtered_sound (t : List LoanRow) (y m : Nat) (sel : Selection)
    (r : LoanRow) (hr : r ∈ df_filtered (df_monthly t y m) sel) :
    r.year = y ∧ r.month = m ∧
    r.franchise ∈ sel.franchises ∧ r.sector ∈ sel.sectors ∧
    r.creditRating ∈ sel.ratings ∧ r.product ∈ sel.products ∧
    (sel.lo : ℚ) ≤ r.balance ∧ r.balance ≤ (sel.hi : ℚ) := by
  simp only [df_filtered, df_monthly, List.mem_filter, List.filter_filter,
    Bool.and_eq_true, beq_iff_eq, decide_eq_true_eq] at hr
  tauto

/-- Witness for C1 at a concrete table and selection. -/
theorem df_filtered_sound_witness :
    exRow.year = 2025 ∧ exRow.month = 2 ∧
    exRow.franchise ∈ exSel.franchises ∧ exRow.sector ∈ exSel.sectors ∧
    exRow.creditRating ∈ exSel.ratings ∧ exRow.product ∈ exSel.products ∧
    (exSel.lo : ℚ) ≤ exRow.balance ∧ exRow.balance ≤ (exSel.hi : ℚ) :=
  df_filtered_sound [exRow] 2025 2 exSel exRow (by
    have h : df_filtered (df_monthly [exRow] 2025 2) exSel = [exRow] := rfl
    rw [h]
    exact List.mem_singleton_self _)

/-- C3: when all four categorical selected sets are empty, the filtered
result is empty — empty selections mean "exclude all". -/
theorem df_filtered_empty_selections (dfm : List LoanRow) (sel : Selection)
    (hf : sel.franchises = []) (hs : sel.sectors = [])
    (hr : sel.ratings = []) (hp : sel.products = []) :
    df_filtered dfm sel = [] := by
  simp [df_filtered, hf]

/-- Witness for C3 on a concrete nonempty table. -/
theorem df_filtered_empty_selections_witness :
    df_filtered [exRow] ⟨[], [], [], [], 0, 200⟩ = [] :=
  df_filtered_empty_selections _ _ rfl rfl rfl rfl

/-- C2 counterexample: a non-empty month subset with non-zero (negative)
total balance on which the displayed weighted-average margin is `0`, not
the value `Σ(margin·balance)/Σ balance = 7/400` demanded by the claim. -/
theorem avg_margin_formula_counterexample :
    exNegRows ≠ [] ∧ total_balance exNegRows ≠ 0 ∧
    avg_margin exNegRows ≠ wam_spec exNegRows := by
  refine ⟨by simp [exNegRows], ?_, ?_⟩
  · norm_num [total_balance, exNegRows]
  · have h0 : avg_margin exNegRows = 0 := by
      norm_num [avg_margin, total_balance, exNegRows]
    have h7 : wam_spec exNegRows = 7/400 := by
      norm_num [wam_spec, total_balance, exNegRows]
    rw [h0, h7]
    norm_num

/-- C2 amended: the summary weighted-average margin agrees with the spec
formula whenever the month's total balance is strictly positive, and is
`0` whenever the total balance is `≤ 0` (in particular when it is `0`). -/
theorem avg_margin_amended (l : List LoanRow) :
    (0 < total_balance l → avg_margin l = wam_spec l) ∧
    (total_balance l ≤ 0 → avg_margin l = 0) := by
  constructor
  · intro h
    rw [avg_margin, wam_spec, if_pos h, if_neg (ne_of_gt h), np_average_margin]
  · intro h
    rw [avg_margin, if_neg (not_lt.mpr h)]

/-- Witness for C2 amended, discharging both hypotheses at concrete
subsets: positive total balance gives the formula value 7/400, negative
total balance gives 0. -/
theorem avg_margin_amended_witness :
    (0 < total_balance exPosRows ∧ avg_margin exPosRows = wam_spec exPosRows) ∧
    (total_balance exNegRows ≤ 0 ∧ avg_margin exNegRows = 0) := by
  have hpos : 0 < total_balance exPosRows := by
    norm_num [total_balance, exPosRows]
  have hneg : total_balance exNegRows ≤ 0 := by
    norm_num [total_balance, exNegRows]
  exact ⟨⟨hpos, (avg_margin_amended exPosRows).1 hpos⟩,
    ⟨hneg, (avg_margin_amended exNegRows).2 hneg⟩⟩

/-- C10: whenever the month-filtered subset's total balance is strictly
negative, the displayed weighted-average margin is `0`: the weighted
average is computed only when the total balance is strictly positive. -/
theorem avg_margin_zero_of_neg_total (l : List LoanRow)
    (h : total_balance l < 0) : avg_margin l = 0 := by
  rw [avg_margin, if_neg (not_lt.mpr h.le)]

/-- Witness for C10 at a concrete subset with total balance `-400`. -/
theorem avg_margin_zero_of_neg_total_witness :
    total_balance exNegRows < 0 ∧ avg_margin exNegRows = 0 := by
  have h : total_balance exNegRows < 0 := by
    norm_num [total_balance, exNegRows]
  exact ⟨h, avg_margin_zero_of_neg_total exNegRows h⟩

/-- C4: the loader is a total function of the read outcome — no exception
reaches the caller.  On a successful read it returns the table with every
date string parsed; on a missing file, a missing decoder, an unparsable
date or any other failure it reports at least one descriptive error and
returns the empty table. -/
theorem load_loan_data_no_exception (res : ReadResult) :
    (∃ rows parsed, res = ReadResult.success rows ∧
      rows.mapM parseRow = some parsed ∧
      load_loan_data res = ⟨[], parsed⟩) ∨
    ((load_loan_data res).errors ≠ [] ∧ (load_loan_data res).table = []) := by
  cases res with
  | success rows =>
    cases h : rows.mapM parseRow with
    | some parsed =>
      refine Or.inl ⟨rows, parsed, rfl, h, ?_⟩
      simp only [load_loan_data]
      rw [h]
    | none =>
      right
      simp only [load_loan_data]
      rw [h]
      simp
  | fileNotFound => right; simp [load_loan_data]
  | importError => right; simp [load_loan_data]
  | otherError e => right; simp [load_loan_data]

/-- Truncation toward zero is the identity on integers. -/
theorem pyInt_intCast (n : ℤ) : pyInt (n : ℚ) = n := by
  rw [pyInt]
  split <;> simp

/-- C6: for integer-valued month min/max balances, the slider step equals
`max(1, (max - min)/100)` rounded down, and when min equals max the slider
upper bound is raised by exactly one step (which is then `1`). -/
theorem step_val_spec (l : List LoanRow) (a b : ℤ)
    (ha : balMin l = (a : ℚ)) (hb : balMax l = (b : ℚ)) :
    step_val l = max 1 ⌊(balMax l - balMin l) / 100⌋ ∧
    (balMin l = balMax l →
      max_balance_adjusted l = max_balance l + step_val l ∧ step_val l = 1) := by
  have hpa : min_balance l = a := by rw [min_balance, ha, pyInt_intCast]
  have hpb : max_balance l = b := by rw [max_balance, hb, pyInt_intCast]
  constructor
  · rw [step_val, hpa, hpb, ha, hb, ← Int.cast_sub,
      show ((100 : ℚ)) = ((100 : ℕ) : ℚ) by norm_num,
      Rat.floor_intCast_div_natCast]
    norm_num
  · intro h
    have hab : a = b := by
      have := ha.symm.trans (h.trans hb)
      exact_mod_cast this
    subst hab
    have hstep : step_val l = 1 := by
      rw [step_val, hpa, hpb]
      norm_num
    refine ⟨?_, hstep⟩
    rw [max_balance_adjusted, if_pos (le_of_eq (hpb.trans hpa.symm)), hpa, hpb]

/-- Witness for C6 on a one-row table whose balance is the integer 100. -/
theorem step_val_spec_witness :
    balMin [exRow] = ((100 : ℤ) : ℚ) ∧ balMax [exRow] = ((100 : ℤ) : ℚ) ∧
    max_balance_adjusted [exRow] = max_balance [exRow] + step_val [exRow] ∧
    step_val [exRow] = 1 := by
  have h1 : balMin [exRow] = ((100 : ℤ) : ℚ) := by norm_num [balMin, exRow]
  have h2 : balMax [exRow] = ((100 : ℤ) : ℚ) := by norm_num [balMax, exRow]
  exact ⟨h1, h2, (step_val_spec [exRow] 100 100 h1 h2).2 (h1.trans h2.symm)⟩

/-- C9 counterexample: a month whose only balance is `100.5`.  The claim
says the row holding the non-integer maximum is excluded by the default
full-range filter; in fact the `min == max` nudge raises the upper bound
to `101` and the row is returned. -/
theorem truncated_bounds_counterexample :
    (max_balance [exHalfRow] : ℚ) ≠ balMax [exHalfRow] ∧
    exHalfRow ∈ default_filtered [exHalfRow] := by
  have hbal : balMax [exHalfRow] = 201/2 := by norm_num [balMax, exHalfRow]
  have hbmin : balMin [exHalfRow] = 201/2 := by norm_num [balMin, exHalfRow]
  have hmaxb : max_balance [exHalfRow] = 100 := by
    rw [max_balance, hbal, pyInt, if_pos (by norm_num)]
    norm_num [Int.floor_eq_iff]
  have hminb : min_balance [exHalfRow] = 100 := by
    rw [min_balance, hbmin, pyInt, if_pos (by norm_num)]
    norm_num [Int.floor_eq_iff]
  have hstep : step_val [exHalfRow] = 1 := by
    rw [step_val, hmaxb, hminb]
    norm_num
  have hadj : max_balance_adjusted [exHalfRow] = 101 := by
    rw [max_balance_adjusted, if_pos (by rw [hmaxb, hminb]), hminb, hstep]
    norm_num
  constructor
  · rw [hmaxb, hbal]
    norm_num
  · simp only [default_filtered, df_filtered, default_selection,
      List.mem_filter, Bool.and_eq_true, decide_eq_true_eq, and_assoc]
    refine ⟨by simp, ?_, ?_, ?_, ?_, ?_, ?_⟩
    · simp [franchise_options, py_sorted, exHalfRow, List.insertionSort,
        List.orderedInsert]
    · simp [sector_options, py_sorted, exHalfRow, List.insertionSort,
        List.orderedInsert]
    · simp [rating_options, rating_options_all, exHalfRow]
    · simp [product_options, py_sorted, exHalfRow, List.insertionSort,
        List.orderedInsert]
    · rw [hminb]
      norm_num [exHalfRow]
    · rw [hadj]
      norm_num [exHalfRow]

/-- C9 amended: the slider bounds come from `int()`-truncating the month's
min/max balance; when the truncations are distinct (so the `min == max`
nudge does not fire) and the truncated maximum sits strictly below the
true maximum (as for any positive non-integer maximum), every row holding
the maximum balance fails `Balance <= int(max)` and is excluded from the
default full-range filter. -/
theorem truncated_bounds_exclude_max (dfm : List LoanRow) (r : LoanRow)
    (hmax : r.balance = balMax dfm)
    (hlt : min_balance dfm < max_balance dfm)
    (hni : (max_balance dfm : ℚ) < balMax dfm) :
    max_balance_adjusted dfm = max_balance dfm ∧ r ∉ default_filtered dfm := by
  have hadj : max_balance_adjusted dfm = max_balance dfm := by
    rw [max_balance_adjusted, if_neg (not_le.mpr hlt)]
  refine ⟨hadj, fun hmem => ?_⟩
  simp only [default_filtered, df_filtered, List.mem_filter, Bool.and_eq_true,
    decide_eq_true_eq, and_assoc] at hmem
  have hle : r.balance ≤ ((default_selection dfm).hi : ℚ) := hmem.2.2.2.2.2.2
  have hhi : (default_selection dfm).hi = max_balance_adjusted dfm := rfl
  rw [hhi, hadj, hmax] at hle
  exact absurd hle (not_le.mpr hni)

/-- Witness for C9 amended on the two-row month with balances 100 and
200.5: the row holding the maximum is not in the default filter result. -/
theorem truncated_bounds_exclude_max_witness :
    (⟨2025, 2, 27, "Retail", "Energy", "AA", "Term Loan", 401/2, 2/100⟩ : LoanRow).balance
      = balMax exC9Rows ∧
    min_balance exC9Rows < max_balance exC9Rows ∧
    (max_balance exC9Rows : ℚ) < balMax exC9Rows ∧
    (⟨2025, 2, 27, "Retail", "Energy", "AA", "Term Loan", 401/2, 2/100⟩ : LoanRow)
      ∉ default_filtered exC9Rows := by
  have hbal : balMax exC9Rows = 401/2 := by norm_num [balMax, exC9Rows]
  have hbmin : balMin exC9Rows = 100 := by norm_num [balMin, exC9Rows]
  have hmaxb : max_balance exC9Rows = 200 := by
    rw [max_balance, hbal, pyInt, if_pos (by norm_num)]
    norm_num [Int.floor_eq_iff]
  have hminb : min_balance exC9Rows = 100 := by
    rw [min_balance, hbmin, pyInt, if_pos (by norm_num)]
    norm_num [Int.floor_eq_iff]
  have h1 : (⟨2025, 2, 27, "Retail", "Energy", "AA", "Term Loan", 401/2, 2/100⟩
      : LoanRow).balance = balMax exC9Rows := by
    rw [hbal]
  have h2 : min_balance exC9Rows < max_balance exC9Rows := by
    rw [hmaxb, hminb]
    norm_num
  have h3 : (max_balance exC9Rows : ℚ) < balMax exC9Rows := by
    rw [hmaxb, hbal]
    norm_num
  exact ⟨h1, h2, h3, (truncated_bounds_exclude_max exC9Rows _ h1 h2 h3).2⟩

/-- Keys of the value counts are a permutation of the distinct values. -/
theorem value_counts_keys_perm (xs : List String) :
    ((value_counts xs).map Prod.fst).Perm xs.dedup := by
  have h1 : (value_counts xs).Perm (xs.dedup.map (fun s => (s, xs.count s))) :=
    List.perm_insertionSort _ _
  have h2 := h1.map Prod.fst
  rw [List.map_map] at h2
  have h3 : List.map (Prod.fst ∘ fun s => (s, xs.count s)) xs.dedup
      = List.map id xs.dedup :=
    List.map_congr_left (fun a _ => rfl)
  rw [h3, List.map_id] at h2
  exact h2

/-- Sorting pairs whose keys are distinct members of the rating scale by
scale position lists the keys in scale order: exactly the scale restricted
to the keys present. -/
theorem sort_keys_eq_filter (ps : List (String × Nat))
    (hn : (ps.map Prod.fst).Nodup)
    (hm : ∀ s ∈ ps.map Prod.fst, s ∈ rating_options_all) :
    ((List.insertionSort (fun a b => ratingIndex a.1 ≤ ratingIndex b.1) ps).map
        Prod.fst)
      = rating_options_all.filter (fun s => decide (s ∈ ps.map Prod.fst)) := by
  haveI : IsTotal (String × Nat) (fun a b => ratingIndex a.1 ≤ ratingIndex b.1) :=
    ⟨fun a b => Nat.le_total _ _⟩
  haveI : IsTrans (String × Nat) (fun a b => ratingIndex a.1 ≤ ratingIndex b.1) :=
    ⟨fun a b c hab hbc => le_trans hab hbc⟩
  have hsorted := List.sorted_insertionSort
    (fun a b => ratingIndex a.1 ≤ ratingIndex b.1) ps
  have hperm := List.perm_insertionSort
    (fun a b => ratingIndex a.1 ≤ ratingIndex b.1) ps
  have hkperm := hperm.map Prod.fst
  have hkey_le : List.Pairwise (fun a b : String => ratingIndex a ≤ ratingIndex b)
      ((List.insertionSort (fun a b => ratingIndex a.1 ≤ ratingIndex b.1) ps).map
        Prod.fst) :=
    List.Pairwise.map _ (fun a b hab => hab) hsorted
  have hknodup := hkperm.nodup_iff.mpr hn
  have hkmem : ∀ s ∈ (List.insertionSort
      (fun a b => ratingIndex a.1 ≤ ratingIndex b.1) ps).map Prod.fst,
      s ∈ rating_options_all :=
    fun s hs => hm s (hkperm.mem_iff.mp hs)
  have hkey_lt : List.Pairwise (fun a b : String => ratingIndex a < ratingIndex b)
      ((List.insertionSort (fun a b => ratingIndex a.1 ≤ ratingIndex b.1) ps).map
        Prod.fst) := by
    refine (hkey_le.and hknodup).imp_of_mem ?_
    intro a b ha hb hab
    refine lt_of_le_of_ne hab.1 (fun heq => hab.2 ?_)
    exact (List.indexOf_inj (hkmem a ha) (hkmem b hb)).mp heq
  have hscale_lt : List.Pairwise (fun a b : String => ratingIndex a < ratingIndex b)
      rating_options_all := by decide
  have htgt_lt := List.Pairwise.sublist
    (List.filter_sublist (p := fun s => decide (s ∈ ps.map Prod.fst))
      rating_options_all) hscale_lt
  have htgt_nodup : (rating_options_all.filter
      (fun s => decide (s ∈ ps.map Prod.fst))).Nodup :=
    List.Nodup.filter _ (by decide)
  have hpermT : ((List.insertionSort
      (fun a b => ratingIndex a.1 ≤ ratingIndex b.1) ps).map Prod.fst).Perm
      (rating_options_all.filter (fun s => decide (s ∈ ps.map Prod.fst))) := by
    rw [List.perm_ext_iff_of_nodup hknodup htgt_nodup]
    intro s
    simp only [List.mem_filter, decide_eq_true_eq]
    constructor
    · intro hs
      exact ⟨hkmem s hs, hkperm.mem_iff.mp hs⟩
    · intro hs
      exact hkperm.mem_iff.mpr hs.2
  haveI : IsAntisymm String (fun a b => ratingIndex a < ratingIndex b) :=
    ⟨fun a b h1 h2 => absurd h2 (not_lt.mpr (le_of_lt h1))⟩
  exact List.eq_of_perm_of_sorted hpermT hkey_lt htgt_lt

/-- C5: for every filtered subset (any selection whose chosen ratings come
from the fixed scale, as the widget guarantees), the facility-count chart
data lists its ratings exactly in the order `[AAA, AA, A, BBB, BB, B,
CCC]` restricted to the ratings present, regardless of row order and
counts. -/
theorem rating_counts_ordered (dfm : List LoanRow) (sel : Selection)
    (hsub : ∀ s ∈ sel.ratings, s ∈ rating_options_all) :
    (rating_counts (df_filtered dfm sel)).map Prod.fst
      = rating_options_all.filter
          (fun s => decide (s ∈ (df_filtered dfm sel).map (·.creditRating))) := by
  have hmem : ∀ s ∈ (df_filtered dfm sel).map (·.creditRating),
      s ∈ rating_options_all := by
    intro s hs
    obtain ⟨row, hrow, rfl⟩ := List.mem_map.mp hs
    have hsel : row.creditRating ∈ sel.ratings := by
      simp only [df_filtered, List.mem_filter, Bool.and_eq_true,
        decide_eq_true_eq] at hrow
      tauto
    exact hsub _ hsel
  have hkeys := value_counts_keys_perm ((df_filtered dfm sel).map (·.creditRating))
  have hnod : ((value_counts ((df_filtered dfm sel).map (·.creditRating))).map
      Prod.fst).Nodup :=
    hkeys.nodup_iff.mpr (List.nodup_dedup _)
  have hmem' : ∀ s ∈ (value_counts ((df_filtered dfm sel).map
      (·.creditRating))).map Prod.fst, s ∈ rating_options_all :=
    fun s hs => hmem s (List.mem_dedup.mp (hkeys.subset hs))
  rw [rating_counts, sort_keys_eq_filter _ hnod hmem']
  refine List.filter_congr (fun s _ => ?_)
  refine decide_eq_decide.mpr ?_
  rw [hkeys.mem_iff, List.mem_dedup]

/-- Witness for C5: rows arrive rated A, AAA, A; the chart data is ordered
AAA before A, the scale order, not the arrival or frequency order. -/
theorem rating_counts_ordered_witness :
    (rating_counts (df_filtered exC5Rows exC5Sel)).map Prod.fst
      = ["AAA", "A"] := by
  rw [rating_counts_ordered exC5Rows exC5Sel (by decide)]
  rfl

/-- Digit characters decode back to the digit they encode. -/
theorem charToDigit_digitToChar (d : Nat) (h : d < 10) :
    charToDigit (digitToChar d) = d := by
  interval_cases d <;> rfl

/-- Digit characters are not the separator. -/
theorem digitToChar_ne_comma (d : Nat) (h : d < 10) : digitToChar d ≠ ',' := by
  interval_cases d <;> decide

/-- Digit characters are not the minus sign. -/
theorem digitToChar_ne_minus (d : Nat) (h : d < 10) : digitToChar d ≠ '-' := by
  interval_cases d <;> decide

/-- Every entry of `decDigits` is a decimal digit. -/
theorem decDigits_lt (n : Nat) : ∀ d ∈ decDigits n, d < 10 := by
  intro d hd
  rw [decDigits] at hd
  split at hd
  · simp at hd
    omega
  · exact Nat.digits_lt_base (by norm_num) hd

/-- The digit list of a natural number is never empty. -/
theorem decDigits_ne_nil (n : Nat) : decDigits n ≠ [] := by
  rw [decDigits]
  split
  · simp
  · exact Nat.digits_ne_nil_iff_ne_zero.mpr (by assumption)

/-- Reading the digit list back gives the number. -/
theorem ofDigits_decDigits (n : Nat) : Nat.ofDigits 10 (decDigits n) = n := by
  rw [decDigits]
  split
  · simp [Nat.ofDigits]
    omega
  · exact Nat.ofDigits_digits 10 n

/-- Stripping the separators undoes the grouping. -/
theorem filter_group3 (l : List Char) (h : ∀ c ∈ l, c ≠ ',') :
    (group3 l).filter (fun c => c != ',') = l := by
  induction l using group3.induct with
  | case1 a b c d rest ih =>
    rw [group3]
    have ha : (a != ',') = true := by simpa using h a (by simp)
    have hb : (b != ',') = true := by simpa using h b (by simp)
    have hc : (c != ',') = true := by simpa using h c (by simp)
    simp only [List.filter_cons, ha, hb, hc, if_true, bne_self_eq_false,
      Bool.false_eq_true, if_false]
    rw [ih (fun x hx => h x (by simp at hx ⊢ ; tauto))]
  | case2 l hshape =>
    rw [group3.eq_def]
    split
    · exact absurd rfl (by intro hcontra; exact hshape _ _ _ _ _ hcontra)
    · exact List.filter_eq_self.mpr (fun a ha => by simpa using h a ha)

/-- Unfolding of the parser on a string that starts with the currency
symbol. -/
theorem parseMonetary_pound (l : List Char) :
    parseMonetary (String.mk ('£' :: l)) =
      (match l.filter (fun c => c != ',') with
      | [] => none
      | c :: cs =>
        if c = '-' then
          if cs = [] then none
          else some (-((Nat.ofDigits 10 (cs.reverse.map charToDigit) : ℕ) : ℤ))
        else some (((Nat.ofDigits 10 ((c :: cs).reverse.map charToDigit) : ℕ) : ℤ))) := by
  rfl

/-- Rendering an integer with separators and parsing it back after the
currency symbol recovers the integer. -/
theorem parse_intWithCommas (n : ℤ) :
    parseMonetary (String.mk ('£' :: intWithCommas n)) = some n := by
  have hlt := decDigits_lt n.natAbs
  have hnC : ∀ ch ∈ (decDigits n.natAbs).map digitToChar, ch ≠ ',' := by
    intro ch hch
    obtain ⟨d, hd, rfl⟩ := List.mem_map.mp hch
    exact digitToChar_ne_comma d (hlt d hd)
  have hnM : ∀ ch ∈ (decDigits n.natAbs).map digitToChar, ch ≠ '-' := by
    intro ch hch
    obtain ⟨d, hd, rfl⟩ := List.mem_map.mp hch
    exact digitToChar_ne_minus d (hlt d hd)
  have hrevfil :
      (((group3 ((decDigits n.natAbs).map digitToChar)).reverse).filter
        (fun c => c != ',')) = ((decDigits n.natAbs).map digitToChar).reverse := by
    rw [List.filter_reverse, filter_group3 _ hnC]
  obtain ⟨e, tl, he⟩ :
      ∃ e tl, ((decDigits n.natAbs).map digitToChar).reverse = e :: tl := by
    cases hr : ((decDigits n.natAbs).map digitToChar).reverse with
    | nil =>
      exfalso
      have := List.reverse_eq_nil_iff.mp hr
      simp only [List.map_eq_nil_iff] at this
      exact decDigits_ne_nil n.natAbs this
    | cons e tl => exact ⟨e, tl, rfl⟩
  have heM : e ≠ '-' := by
    have : e ∈ ((decDigits n.natAbs).map digitToChar).reverse := by
      rw [he]; simp
    exact hnM e (List.mem_reverse.mp this)
  have hmap : List.map (charToDigit ∘ digitToChar) (decDigits n.natAbs)
      = List.map id (decDigits n.natAbs) :=
    List.map_congr_left (fun d hd => charToDigit_digitToChar d (hlt d hd))
  have hval : Nat.ofDigits 10 (List.map charToDigit (e :: tl).reverse)
      = n.natAbs := by
    rw [← he, List.reverse_reverse, List.map_map, hmap, List.map_id,
      ofDigits_decDigits]
  by_cases hneg : n < 0
  · have hexp : intWithCommas n
        = '-' :: (group3 ((decDigits n.natAbs).map digitToChar)).reverse := by
      simp only [intWithCommas]
      rw [if_pos hneg]
    have hfil : (('-' :: (group3 ((decDigits n.natAbs).map digitToChar)).reverse).filter
        (fun c => c != ',')) = '-' :: e :: tl := by
      rw [List.filter_cons, if_pos (by decide), hrevfil, he]
    rw [hexp, parseMonetary_pound, hfil]
    show (if ('-' : Char) = '-' then
        if (e :: tl : List Char) = [] then none
        else some (-((Nat.ofDigits 10 (List.map charToDigit (e :: tl).reverse) : ℕ) : ℤ))
      else some (((Nat.ofDigits 10 (List.map charToDigit (('-' :: e :: tl) : List Char).reverse) : ℕ) : ℤ))) = some n
    rw [if_pos rfl, if_neg (by simp), hval]
    congr 1
    omega
  · have hexp : intWithCommas n
        = (group3 ((decDigits n.natAbs).map digitToChar)).reverse := by
      simp only [intWithCommas]
      rw [if_neg hneg]
    rw [hexp, parseMonetary_pound, hrevfil, he]
    show (if e = '-' then
        if (tl : List Char) = [] then none
        else some (-((Nat.ofDigits 10 (List.map charToDigit tl.reverse) : ℕ) : ℤ))
      else some (((Nat.ofDigits 10 (List.map charToDigit ((e :: tl) : List Char).reverse) : ℕ) : ℤ))) = some n
    rw [if_neg heM, hval]
    congr 1
    omega

/-- The half-even rounding sits within half a unit of its argument. -/
theorem abs_sub_roundHalfEven (q : ℚ) :
    |q - (roundHalfEven q : ℚ)| ≤ 1/2 := by
  rw [roundHalfEven]
  split
  · rename_i htie
    have hfr : q - (⌊q⌋ : ℚ) = 1/2 := by
      rw [Int.self_sub_floor]
      exact htie
    split
    · rw [abs_of_nonneg (by rw [hfr]; norm_num)]
      rw [hfr]
    · push_cast
      have : q - ((⌊q⌋ : ℚ) + 1) = -(1/2) := by
        rw [sub_add_eq_sub_sub, hfr]
        norm_num
      rw [this, abs_neg, abs_of_nonneg (by norm_num)]
  · exact abs_sub_round q

/-- C8: formatting a monetary value to its currency display string and
parsing the string back after stripping the currency symbol and the
separators recovers the value rounded to the nearest whole unit (the
parsed integer differs from the original by at most half a unit). -/
theorem currency_roundtrip (q : ℚ) :
    ∃ n : ℤ, parseMonetary (formatCurrency q) = some n ∧
      |q - (n : ℚ)| ≤ 1/2 :=
  ⟨roundHalfEven q, parse_intWithCommas (roundHalfEven q),
    abs_sub_roundHalfEven q⟩

/-- Binding a success just applies the continuation. -/
theorem except_bind_ok {ε α β : Type} (a : α) (f : α → Except ε β) :
    (Except.ok a >>= f) = f a :=
  rfl

/-- Mapping a cell-level formatter succeeds when it succeeds cellwise. -/
theorem mapM_cells_ok (f : Cell → Except String Cell) :
    ∀ (cells : List Cell), (∀ c ∈ cells, ∃ c', f c = Except.ok c') →
      ∃ cs, cells.mapM f = Except.ok cs := by
  intro cells h
  induction cells with
  | nil => exact ⟨[], rfl⟩
  | cons c cs ih =>
    obtain ⟨c', hc⟩ := h c (by simp)
    obtain ⟨cs', hcs⟩ := ih (fun x hx => h x (by simp [hx]))
    refine ⟨c' :: cs', ?_⟩
    rw [List.mapM_cons, hc, except_bind_ok, hcs, except_bind_ok]
    rfl

/-- A columnwise pass succeeds when every column succeeds, keeps the
column names, and each output column comes from the input column of the
same name. -/
theorem mapColumns_ok (g : String → List Cell → Except String (List Cell)) :
    ∀ (tbl : List (String × List Cell)),
      (∀ p ∈ tbl, ∃ cs, g p.1 p.2 = Except.ok cs) →
      ∃ t', mapColumns g tbl = Except.ok t' ∧
        t'.map Prod.fst = tbl.map Prod.fst ∧
        ∀ q ∈ t', ∃ p, p ∈ tbl ∧ q.1 = p.1 ∧ g p.1 p.2 = Except.ok q.2 := by
  intro tbl h
  induction tbl with
  | nil => exact ⟨[], rfl, rfl, by simp⟩
  | cons p ps ih =>
    obtain ⟨cs, hcs⟩ := h p (by simp)
    obtain ⟨t', ht', hnames, hcells⟩ := ih (fun x hx => h x (by simp [hx]))
    rw [mapColumns] at ht'
    refine ⟨(p.1, cs) :: t', ?_, by simp [hnames], ?_⟩
    · rw [mapColumns, List.mapM_cons, hcs, except_bind_ok, pure_bind, ht',
        except_bind_ok]
      rfl
    · intro q hq
      rcases List.mem_cons.mp hq with hq1 | hq2
      · exact ⟨p, by simp, by rw [hq1], by rw [hq1]; exact hcs⟩
      · obtain ⟨p', hp', h1, h2⟩ := hcells q hq2
        exact ⟨p', by simp [hp'], h1, h2⟩

/-- A numeric-typed column survives its formatting loop. -/
theorem formatColCells_ok (name : String) (cells : List Cell)
    (h : name ∈ numeric_format_cols → ∀ c ∈ cells, ∃ q, c = Cell.num q) :
    ∃ cs, formatColCells name cells = Except.ok cs := by
  rw [formatColCells]
  split
  · rename_i hcur
    refine mapM_cells_ok _ cells (fun c hc => ?_)
    obtain ⟨q, rfl⟩ :=
      h (by simp only [numeric_format_cols, List.mem_append]; tauto) c hc
    exact ⟨_, rfl⟩
  · split
    · rename_i hpct
      refine mapM_cells_ok _ cells (fun c hc => ?_)
      obtain ⟨q, rfl⟩ :=
        h (by simp only [numeric_format_cols, List.mem_append]; tauto) c hc
      exact ⟨_, rfl⟩
    · split
      · rename_i hpd
        refine mapM_cells_ok _ cells (fun c hc => ?_)
        obtain ⟨q, rfl⟩ := h (by
          simp only [numeric_format_cols, List.mem_append]
          right
          simp [hpd]) c hc
        exact ⟨_, rfl⟩
      · split
        · rename_i hlgd
          refine mapM_cells_ok _ cells (fun c hc => ?_)
          obtain ⟨q, rfl⟩ := h (by
            simp only [numeric_format_cols, List.mem_append]
            right
            simp [hlgd]) c hc
          exact ⟨_, rfl⟩
        · exact ⟨cells, rfl⟩

/-- A datetime-typed (or differently named) column survives the date
pass. -/
theorem dateColCells_ok (name : String) (cells : List Cell)
    (hd : name = "Date" → ∀ c ∈ cells, ∃ y m d, c = Cell.date y m d) :
    ∃ cs, dateColCells name cells = Except.ok cs := by
  rw [dateColCells]
  split
  · rename_i hname
    refine mapM_cells_ok _ cells (fun c hc => ?_)
    obtain ⟨y, m, d, rfl⟩ := hd hname c hc
    exact ⟨_, rfl⟩
  · exact ⟨cells, rfl⟩

/-- The reordered table lists exactly the priority columns present, in
priority order. -/
theorem reorderColumns_names (tbl : List (String × List Cell)) :
    (reorderColumns tbl).map Prod.fst
      = display_cols.filter (fun c => decide (c ∈ tbl.map Prod.fst)) := by
  rw [reorderColumns]
  have hgen : ∀ (cs : List String), (∀ c ∈ cs, c ∈ tbl.map Prod.fst) →
      ((cs.filterMap (fun c => tbl.find? (fun p => p.1 == c))).map Prod.fst)
        = cs := by
    intro cs
    induction cs with
    | nil => simp
    | cons c rest ih =>
      intro h
      have hc : c ∈ tbl.map Prod.fst := h c (by simp)
      obtain ⟨p, hp, hpc⟩ : ∃ p ∈ tbl, p.1 = c := by
        obtain ⟨p, hp, he⟩ := List.mem_map.mp hc
        exact ⟨p, hp, he⟩
      obtain ⟨p', hp'⟩ : ∃ p', tbl.find? (fun x => x.1 == c) = some p' := by
        rw [← Option.isSome_iff_exists, List.find?_isSome]
        exact ⟨p, hp, by simp [hpc]⟩
      have hp'1 : p'.1 = c := by
        have := List.find?_some hp'
        simpa using this
      rw [List.filterMap_cons, hp']
      simp only [List.map_cons, hp'1]
      rw [ih (fun x hx => h x (by simp [hx]))]
  refine hgen _ (fun c hc => ?_)
  have := List.mem_filter.mp hc
  simpa using this.2

/-- C7: over any well-typed filtered table that has its `Date` column (as
every table reaching the display step does, the loader having parsed
`Date`), the display-formatting step raises no page-level error: columns
of the priority list absent from the data are skipped silently, and the
display table's columns are exactly the priority list restricted to the
columns present, in priority order. -/
theorem df_display_columns (tbl : List (String × List Cell))
    (hnum : ∀ p ∈ tbl, p.1 ∈ numeric_format_cols → ∀ c ∈ p.2, ∃ q, c = Cell.num q)
    (hdate : ∀ p ∈ tbl, p.1 = "Date" → ∀ c ∈ p.2, ∃ y m d, c = Cell.date y m d)
    (hpres : "Date" ∈ tbl.map Prod.fst) :
    (df_display tbl).map Prod.fst
      = display_cols.filter (fun c => decide (c ∈ tbl.map Prod.fst)) := by
  obtain ⟨t1, ht1, hn1, hc1⟩ := mapColumns_ok formatColCells tbl
    (fun p hp => formatColCells_ok p.1 p.2 (hnum p hp))
  have hd1 : ∀ q ∈ t1, q.1 = "Date" → ∀ c ∈ q.2, ∃ y m d, c = Cell.date y m d := by
    intro q hq hq1 c hc
    obtain ⟨p, hp, hpq, hg⟩ := hc1 q hq
    have hp1 : p.1 = "Date" := by rw [← hpq, hq1]
    rw [formatColCells, hp1] at hg
    rw [if_neg (by decide), if_neg (by decide), if_neg (by decide),
      if_neg (by decide)] at hg
    have hpq2 : p.2 = q.2 := by
      injection hg
    exact hdate p hp hp1 c (hpq2 ▸ hc)
  obtain ⟨t2, ht2, hn2, hc2⟩ := mapColumns_ok dateColCells t1
    (fun q hq => dateColCells_ok q.1 q.2 (hd1 q hq))
  have hpres1 : "Date" ∈ t1.map Prod.fst := by rw [hn1]; exact hpres
  have hdc : formatDateColumn t1 = Except.ok t2 := by
    rw [formatDateColumn, if_pos hpres1]
    exact ht2
  have hfd : format_display tbl = Except.ok (reorderColumns t2) := by
    rw [format_display, ht1, except_bind_ok, hdc, except_bind_ok]
    rfl
  rw [df_display, hfd]
  rw [reorderColumns_names, hn2, hn1]

/-- Witness for C7: a table holding only Customer Name, Balance, Date and
Margin (in that arrival order) displays as Date, Customer Name, Balance,
Margin — the priority order with the absent columns skipped and no
error. -/
theorem df_display_columns_witness :
    (df_display exC7Table).map Prod.fst
      = ["Date", "Customer Name", "Balance", "Margin"] := by
  rw [df_display_columns exC7Table ?hnum ?hdate ?hpres]
  case hnum =>
    intro p hp hmem c hc
    simp only [exC7Table, List.mem_cons, List.not_mem_nil, or_false] at hp
    rcases hp with rfl | rfl | rfl | rfl
    · exact absurd hmem (by decide)
    · rw [List.mem_singleton.mp hc]
      exact ⟨1234, rfl⟩
    · exact absurd hmem (by decide)
    · rw [List.mem_singleton.mp hc]
      exact ⟨1/100, rfl⟩
  case hdate =>
    intro p hp hname c hc
    simp only [exC7Table, List.mem_cons, List.not_mem_nil, or_false] at hp
    rcases hp with rfl | rfl | rfl | rfl
    · exact absurd hname (by decide)
    · exact absurd hname (by decide)
    · rw [List.mem_singleton.mp hc]
      exact ⟨2025, 2, 28, rfl⟩
    · exact absurd hname (by decide)
  case hpres => decide
  rfl

end Sorrento
